import Mathlib

/-!
Verification of the NumbFS diagnostic tool (fsck.c, disk.h).

This development shallowly embeds the data model and the operations of the
NumbFS inspection tool: the per-byte bit counter and the bitmap usage
auditor, the on-disk record sizes, the extended-attribute formatter, the
directory content walker, the single-inode inspector and the report driver.
Machine integers are modelled as Nat (bytes as Fin 256); fallible device
operations are modelled as Option / Except valued functions.  The block
size BYTES_PER_BLOCK is defined in a header that is not part of the two
source files, so every definition is parametrised by a block size BPB.

External collaborators (the block I/O layer, the inode resolution service
and the superblock bootstrap, declared in internal.h / utils.h which are
not under src/) are modelled as function-valued parameters, read-only as
the specification states.
-/

/-- A byte, as stored on disk. -/
abbrev Byte := Fin 256

/-- Little-endian decoding of a byte list (first byte least significant),
as le16_to_cpu / le64_to_cpu do. -/
def leDecode (l : List Byte) : Nat :=
  l.foldr (fun b acc => b.val + 256 * acc) 0

/-- The 8-iteration loop body of count_bit in fsck.c: in each round the
low bit is added and the byte is shifted right. -/
def count_bit_go : Nat → Nat → Nat
  | 0, _ => 0
  | n + 1, b => b % 2 + count_bit_go n (b / 2)

/-- count_bit (fsck.c): number of set bits of one byte, computed by the
8-round shift-and-mask loop. -/
def count_bit (byte : Byte) : Nat :=
  count_bit_go 8 byte.val

/-- Specification-side population count of a byte: the number of bit
positions below 8 that are set. -/
def bitsSet (b : Nat) : Nat :=
  ((List.range 8).filter (fun j => b.testBit j)).length

/-- Total number of set bits in a region of bytes. -/
def regionSetBits (bytes : List Byte) : Nat :=
  (bytes.map (fun b => bitsSet b.val)).sum

/-- numbfs_fsck_used (fsck.c): sums count_bit over the BYTES_PER_BLOCK
bytes of one block buffer. -/
def numbfs_fsck_used (BPB : Nat) (buf : List Byte) : Nat :=
  ((List.range BPB).map (fun i => count_bit (buf.getD i 0))).sum

/-- Size in bytes of struct numbfs_super_block (disk.h): ten __le32
fields followed by 88 reserved bytes; the fields are naturally aligned so
no padding is inserted. -/
def sizeof_numbfs_super_block : Nat :=
  4 + 4 + 4 + 4 + 4 + 4 + 4 + 4 + 4 + 4 + 88

/-- Size in bytes of struct numbfs_inode (disk.h): four __le16, three
__le32, one __u8 count, three padding bytes and ten __le32 data slots. -/
def sizeof_numbfs_inode : Nat :=
  2 + 2 + 2 + 2 + 4 + 4 + 4 + 1 + 3 + 4 * 10

/-- Size in bytes of struct numbfs_dirent (disk.h): name_len, type, the
60-byte name buffer and the __le16 inode number. -/
def sizeof_numbfs_dirent : Nat :=
  1 + 1 + 60 + 2

/-- Size in bytes of struct numbfs_timestamps (disk.h): three __le64
times and 8 reserved bytes. -/
def sizeof_numbfs_timestamps : Nat :=
  8 + 8 + 8 + 8

/-- numbfs_check_ondisk (disk.h): the build-time assertions on the four
fixed on-disk record sizes; NUMBFS_BUILD_BUG_ON makes any mismatch a fatal
compile error. -/
def numbfs_check_ondisk : Prop :=
  sizeof_numbfs_super_block = 128 ∧ sizeof_numbfs_inode = 64 ∧
    sizeof_numbfs_dirent = 64 ∧ sizeof_numbfs_timestamps = 32

/-- Size in bytes of struct numbfs_xattr_entry (disk.h): four one-byte
fields, the 16-byte name buffer and the 32-byte value buffer. -/
def sizeof_numbfs_xattr_entry : Nat :=
  1 + 1 + 1 + 1 + 16 + 32

/-- NUMBFS_XATTR_ENTRY_START (disk.h): the attribute slots start after
the 32-byte timestamp header of the attribute block. -/
def NUMBFS_XATTR_ENTRY_START : Nat := 32

/-- NUMBFS_XATTR_MAX_ENTRY (disk.h): number of attribute slots in one
attribute block. -/
def NUMBFS_XATTR_MAX_ENTRY (BPB : Nat) : Nat :=
  (BPB - 32) / 52

/-- The stack buffer built by numbfs_dump_xattrs (fsck.c) for one field:
memset to zero, then spaces written at positions len .. len+front-1 with
front = width - len - 1, then the first len source bytes copied over.
Position j of the resulting width-byte buffer therefore holds the source
byte for j below len, a space while j + 1 is below width, and NUL at the
final position. -/
def numbfs_xattr_pad (width len : Nat) (src : List Byte) : List Byte :=
  (List.range width).map (fun j =>
    if j < len then src.getD j 0
    else if j + 1 < width then (32 : Byte) else 0)

/-- What printf with a plain string conversion renders from the padded
field buffer: the bytes up to the first NUL. -/
def numbfs_xattr_render (width len : Nat) (src : List Byte) : List Byte :=
  (numbfs_xattr_pad width len src).takeWhile (fun b => b != 0)

/-- A device access performed by the tool. The source performs no write
to the device anywhere, but the operation type has a write constructor so
that read-only behaviour is an actual statement about the trace. -/
inductive DevOp
  | read (blk : Nat)
  | write (blk : Nat)
deriving DecidableEq

/-- Whether a device operation is a read. -/
def DevOp.isRead : DevOp → Bool
  | .read _ => true
  | .write _ => false

/-- The three classes printed by numbfs_dir_type (fsck.c). -/
inductive DirType
  | dir
  | symlink
  | regular
deriving DecidableEq

/-- numbfs_dir_type (fsck.c): DT_DIR is 4 and DT_LNK is 10 in dirent.h;
every other type byte renders as REGULAR. -/
def numbfs_dir_type (t : Byte) : DirType :=
  if t.val = 4 then .dir else if t.val = 10 then .symlink else .regular

/-- S_IFMT, the file-type mask of the mode field. -/
def S_IFMT : Nat := 61440

/-- S_IFDIR, the directory type bits. -/
def S_IFDIR : Nat := 16384

/-- S_IFLNK, the symbolic-link type bits. -/
def S_IFLNK : Nat := 40960

/-- S_ISDIR on the decoded mode. -/
def S_ISDIR (m : Nat) : Bool := m &&& S_IFMT == S_IFDIR

/-- S_ISLNK on the decoded mode. -/
def S_ISLNK (m : Nat) : Bool := m &&& S_IFMT == S_IFLNK

/-- One line of the inode report written to standard output, in
structured form: each constructor corresponds to one printf of
numbfs_fsck_show_inode / numbfs_dump_xattrs, carrying the printed
values. The strftime date formatting is abstracted by carrying the raw
decoded epoch value. -/
inductive OutLine
  | header
  | inodeNumber (nid : Int)
  | inodeTypeDir
  | inodeTypeSymlink
  | inodeTypeRegular
  | linkCount (n : Nat)
  | uidLine (n : Nat)
  | gidLine (n : Nat)
  | atime (t : Nat)
  | mtime (t : Nat)
  | ctime (t : Nat)
  | sizeLine (n : Nat)
  | xattrSep
  | xattrHeader (count : Nat)
  | xattrLine (ty : Byte) (nameField valueField : List Byte)
  | blank
  | dirHeader
  | dirLine (ino : Nat) (ty : DirType) (nameLen : Byte) (name : List Byte)
deriving DecidableEq

/-- Decoded struct numbfs_xattr_entry (disk.h). -/
structure numbfs_xattr_entry where
  e_valid : Byte
  e_type : Byte
  e_nlen : Byte
  e_vlen : Byte
  e_name : List Byte
  e_value : List Byte
deriving DecidableEq

/-- Reinterpretation of 52 consecutive bytes as a struct
numbfs_xattr_entry, following the field layout of disk.h. -/
def decode_xattr_entry (bytes : List Byte) : numbfs_xattr_entry :=
  ⟨bytes.getD 0 0, bytes.getD 1 0, bytes.getD 2 0, bytes.getD 3 0,
   (bytes.drop 4).take 16, (bytes.drop 20).take 32⟩

/-- numbfs_dump_xattrs (fsck.c): nothing is printed when the attribute
count is zero; a failed attribute-block read prints only a diagnostic to
stderr and returns; otherwise the slots of the attribute block are
scanned in order, invalid slots are skipped, and every valid slot is
rendered with the 16-wide name field and the 32-wide value field.
Returns the printed lines and the device operations performed. -/
def numbfs_dump_xattrs (BPB : Nat) (read_block : Nat → Except Int (List Byte))
    (blkIdx : Nat) (xattr_count : Nat) : List OutLine × List DevOp :=
  if xattr_count = 0 then ([], [])
  else
    match read_block blkIdx with
    | .error _ => ([], [.read blkIdx])
    | .ok buf =>
      let slots := (List.range (NUMBFS_XATTR_MAX_ENTRY BPB)).filterMap (fun i =>
        let xe := decode_xattr_entry
          ((buf.drop (NUMBFS_XATTR_ENTRY_START + 52 * i)).take 52)
        if xe.e_valid = 0 then none
        else some (OutLine.xattrLine xe.e_type
          (numbfs_xattr_render 16 xe.e_nlen.val xe.e_name)
          (numbfs_xattr_render 32 xe.e_vlen.val xe.e_value)))
      ([.xattrSep, .xattrHeader xattr_count] ++ slots ++ [.xattrSep], [.read blkIdx])

/-- Decoded struct numbfs_dirent (disk.h): name_len, type, the 60-byte
name buffer, and the little-endian 16-bit inode number. -/
structure DirentRec where
  name_len : Byte
  typ : Byte
  name : List Byte
  ino : Nat
deriving DecidableEq

/-- Reinterpretation of a 64-byte window as a struct numbfs_dirent. -/
def decode_dirent (w : List Byte) : DirentRec :=
  ⟨w.getD 0 0, w.getD 1 0, (w.drop 2).take 60, leDecode ((w.drop 62).take 2)⟩

/-- The NAME field printed for a directory entry: printf with a plain
string conversion on the name buffer prints its bytes up to the first
NUL, with no truncation at name_len. -/
def renderDirName (d : DirentRec) : List Byte :=
  d.name.takeWhile (fun b => b != 0)

/-- The directory content line printed by numbfs_fsck_show_inode for one
entry: inode number, rendered type class, name_len, and the NAME field. -/
def mkDirLine (d : DirentRec) : OutLine :=
  .dirLine d.ino (numbfs_dir_type d.typ) d.name_len (renderDirName d)

/-- The byte written by encoding a natural number modulo 256. -/
def byteOf (n : Nat) : Byte :=
  ⟨n % 256, Nat.mod_lt n (by omega)⟩

/-- On-disk encoding of a directory entry, inverse of decode_dirent for
well-formed records: name_len, type, the 60 name bytes, then the inode
number in little-endian. -/
def encodeDirent (d : DirentRec) : List Byte :=
  d.name_len :: d.typ :: (d.name ++ [byteOf d.ino, byteOf (d.ino / 256)])

/-- The directory listing loop of numbfs_fsck_show_inode (fsck.c).
The offset i advances in strides of 64 while i is below the inode size;
whenever i is at a block boundary the block holding offset i is fetched
with a positioned read (a failed read stops the listing and is the
returned error); each step reinterprets the 64 bytes at the current
buffer position as a dirent and prints its line.  The fuel argument only
bounds the number of iterations (each iteration advances the offset by
64, so size iterations are never reached); the loop exit is governed by
the condition i below size, as in the source.  preadBlk gives the
physical block that the positioned read at a given offset touches.
Returns the printed lines, the return code, and the device reads. -/
def numbfs_dir_walk_go (BPB : Nat) (pread : Nat → Except Int (List Byte))
    (preadBlk : Nat → Nat) (size : Nat) :
    Nat → Nat → List Byte → List OutLine × Int × List DevOp
  | 0, _, _ => ([], 0, [])
  | fuel + 1, i, buf =>
    if i < size then
      if i % BPB = 0 then
        match pread i with
        | .error e => ([], e, [.read (preadBlk i)])
        | .ok buf2 =>
          let d := decode_dirent ((buf2.drop (i % BPB)).take 64)
          let r := numbfs_dir_walk_go BPB pread preadBlk size fuel (i + 64) buf2
          (mkDirLine d :: r.1, r.2.1, .read (preadBlk i) :: r.2.2)
      else
        let d := decode_dirent ((buf.drop (i % BPB)).take 64)
        let r := numbfs_dir_walk_go BPB pread preadBlk size fuel (i + 64) buf
        (mkDirLine d :: r.1, r.2.1, r.2.2)
    else ([], 0, [])

/-- The directory walk over a directory inode of the given size,
starting at offset 0.  The buffer initially holds unrelated content (the
attribute block in the source); offset 0 is at a block boundary, so it is
replaced before the first entry is decoded. -/
def numbfs_dir_walk (BPB : Nat) (pread : Nat → Except Int (List Byte))
    (preadBlk : Nat → Nat) (size : Nat) : List OutLine × Int × List DevOp :=
  numbfs_dir_walk_go BPB pread preadBlk size size 0 (List.replicate BPB 0)

/-- Decoded host-endian superblock descriptor (struct
numbfs_superblock_info of the excluded internal.h), with the fields the
driver consumes. -/
structure SbInfo where
  ibitmap_start : Nat
  inode_start : Nat
  bbitmap_start : Nat
  data_start : Nat
  total_inodes : Nat
  free_inodes : Nat
  data_blocks : Nat
  free_blocks : Nat
deriving DecidableEq

/-- Decoded inode metadata (struct numbfs_inode_info of the excluded
internal.h), with the fields numbfs_fsck_show_inode consumes. -/
structure InodeInfo where
  mode : Nat
  nlink : Nat
  uid : Nat
  gid : Nat
  size : Nat
  xattr_start : Nat
  xattr_count : Nat
deriving DecidableEq

/-- Modelled from the spec: the external collaborators of the core
(internal.h / utils.h are not under src/).  The specification states the
block I/O layer provides whole-block reads, the inode resolution service
decodes an inode and supports positioned reads against its data region,
and the superblock bootstrap reads and validates the superblock; all are
strictly read-only against the device.  Each is therefore a pure
function; openDev models the open of the device path, data_blk the
superblock-relative block translation, inode_table_blk the physical
block that resolving an inode reads, and pread_inode_blk the physical
block that a positioned read at a given offset touches. -/
structure Externals where
  openDev : Except Int Unit
  getSuperblock : Except Int SbInfo
  pread : Nat → Option (List Byte)
  read_block : Nat → Except Int (List Byte)
  get_inode : Int → Except Int InodeInfo
  pread_inode : Int → Nat → Except Int (List Byte)
  data_blk : Nat → Nat
  inode_table_blk : Int → Nat
  pread_inode_blk : Int → Nat → Nat

/-- numbfs_fsck_show_inode (fsck.c): resolves the inode, then reads the
attribute block addressed by the inode unconditionally (the timestamp
header lives there); a failure of either step returns the error with
nothing printed.  On success the inode report header is printed, the
attribute dump follows, and for a directory inode the directory content
listing runs.  Returns the printed stdout lines, the return code, and
the device reads performed. -/
def numbfs_fsck_show_inode (BPB : Nat) (ext : Externals) (nid : Int) :
    List OutLine × Int × List DevOp :=
  match ext.get_inode nid with
  | .error e => ([], e, [.read (ext.inode_table_blk nid)])
  | .ok ni =>
    match ext.read_block (ext.data_blk ni.xattr_start) with
    | .error e =>
      ([], e, [.read (ext.inode_table_blk nid), .read (ext.data_blk ni.xattr_start)])
    | .ok buf =>
      let typeLine : OutLine :=
        if S_ISDIR ni.mode then .inodeTypeDir
        else if S_ISLNK ni.mode then .inodeTypeSymlink
        else .inodeTypeRegular
      let headerLines : List OutLine :=
        [.header, .inodeNumber nid, typeLine, .linkCount ni.nlink,
         .uidLine ni.uid, .gidLine ni.gid,
         .atime (leDecode (buf.take 8)),
         .mtime (leDecode ((buf.drop 8).take 8)),
         .ctime (leDecode ((buf.drop 16).take 8)),
         .sizeLine ni.size]
      let xd := numbfs_dump_xattrs BPB ext.read_block (ext.data_blk ni.xattr_start)
        ni.xattr_count
      let base := headerLines ++ xd.1 ++ [OutLine.blank]
      let baseReads := DevOp.read (ext.inode_table_blk nid) ::
        DevOp.read (ext.data_blk ni.xattr_start) :: xd.2
      if S_ISDIR ni.mode then
        let w := numbfs_dir_walk BPB (ext.pread_inode nid) (ext.pread_inode_blk nid)
          ni.size
        (base ++ OutLine.dirHeader :: w.1, w.2.1, baseReads ++ w.2.2)
      else (base, 0, baseReads)

/-- The parsed command-line configuration (struct numbfs_fsck_cfg of
fsck.c) after argument parsing: nid defaults to -1 when the nid option is
absent and holds the atoi result otherwise. -/
structure FsckCfg where
  show_inodes : Bool
  show_blocks : Bool
  nid : Int
deriving DecidableEq

/-- The report sections of one run, in the order the driver emits them. -/
inductive RSection
  | superblock
  | inodeUsage
  | blockUsage
  | inodeDetail
deriving DecidableEq

/-- How a run of numbfs_fsck ends: with a return code of the function, or
halted by the BUG_ON hard assertion. -/
inductive FsckResult
  | exitCode (e : Int)
  | abort
deriving DecidableEq

/-- The observable outcome of one numbfs_fsck run: the report sections
emitted, the single-inode detail lines, how the run ended, and the
device operations performed. -/
structure FsckRun where
  sections : List RSection
  inode_lines : List OutLine
  result : FsckResult
  ops : List DevOp
deriving DecidableEq

/-- The bitmap zone loop of numbfs_fsck (fsck.c): reads each block of the
zone in order with pread and accumulates numbfs_fsck_used; a short read
makes the run fail with EIO at that point.  The fuel is exactly the
number of blocks left to read.  Returns the accumulated count (none on a
failed read) and the device reads attempted. -/
def sumBitmapGo (BPB : Nat) (pread : Nat → Option (List Byte)) :
    Nat → Nat → Option Nat × List DevOp
  | _, 0 => (some 0, [])
  | i, fuel + 1 =>
    match pread i with
    | none => (none, [.read i])
    | some buf =>
      let r := sumBitmapGo BPB pread (i + 1) fuel
      (r.1.map (fun c => numbfs_fsck_used BPB buf + c), .read i :: r.2)

/-- The bitmap zone sum over blocks lo, lo+1, ... up to (excluding) hi. -/
def sumBitmap (BPB : Nat) (pread : Nat → Option (List Byte)) (lo hi : Nat) :
    Option Nat × List DevOp :=
  sumBitmapGo BPB pread lo (hi - lo)

/-- One bitmap zone audit of numbfs_fsck (fsck.c): the zone is summed; a
failed read ends the run with return code -EIO (-5); then BUG_ON halts
the process unless the computed count equals total - free; when the
check passes (result none) the usage line is printed.  BUG_ON, defined
in the excluded utils.h, is modelled from the spec: the reference tool
implements the consistency check as a hard assertion that halts the
process. -/
def numbfs_fsck_bitmap_check (BPB : Nat) (pread : Nat → Option (List Byte))
    (lo hi total free : Nat) : Option FsckResult × List DevOp :=
  let s := sumBitmap BPB pread lo hi
  match s.1 with
  | none => (some (.exitCode (-5)), s.2)
  | some cnt =>
    if (cnt : Int) = (total : Int) - (free : Int) then (none, s.2)
    else (some .abort, s.2)

/-- numbfs_fsck (fsck.c), after argument parsing: open the device, read
the superblock (the superblock summary section is printed on success),
then the inode bitmap audit if requested, the block bitmap audit if
requested, and the single-inode detail if the configured nid is
non-negative.  The superblock lives one block from the device start, so
the bootstrap read is of block 1. -/
def numbfs_fsck (BPB : Nat) (cfg : FsckCfg) (ext : Externals) : FsckRun :=
  match ext.openDev with
  | .error e => ⟨[], [], .exitCode e, []⟩
  | .ok _ =>
    match ext.getSuperblock with
    | .error e => ⟨[], [], .exitCode e, [.read 1]⟩
    | .ok sbi =>
      let iStage := if cfg.show_inodes then
          numbfs_fsck_bitmap_check BPB ext.pread sbi.ibitmap_start sbi.inode_start
            sbi.total_inodes sbi.free_inodes
        else (none, [])
      match iStage.1 with
      | some res => ⟨[.superblock], [], res, .read 1 :: iStage.2⟩
      | none =>
        let secs1 := RSection.superblock ::
          (if cfg.show_inodes then [RSection.inodeUsage] else [])
        let bStage := if cfg.show_blocks then
            numbfs_fsck_bitmap_check BPB ext.pread sbi.bbitmap_start sbi.data_start
              sbi.data_blocks sbi.free_blocks
          else (none, [])
        match bStage.1 with
        | some res => ⟨secs1, [], res, .read 1 :: (iStage.2 ++ bStage.2)⟩
        | none =>
          let secs2 := secs1 ++ (if cfg.show_blocks then [RSection.blockUsage] else [])
          if 0 ≤ cfg.nid then
            let si := numbfs_fsck_show_inode BPB ext cfg.nid
            let ops := DevOp.read 1 :: (iStage.2 ++ bStage.2 ++ si.2.2)
            if si.2.1 = 0 then
              ⟨secs2 ++ [.inodeDetail], si.1, .exitCode 0, ops⟩
            else
              ⟨secs2 ++ (if si.1 = [] then [] else [.inodeDetail]), si.1,
                .exitCode si.2.1, ops⟩
          else ⟨secs2, [], .exitCode 0, .read 1 :: (iStage.2 ++ bStage.2)⟩

/-- Concrete bitmap region for the C4 witness: two one-byte blocks with
bits spread across the byte and block boundary. -/
def blocksC4 : List (List Byte) := [[⟨129, by omega⟩], [⟨7, by omega⟩]]

/-- Canonical block server for the C4 witness. -/
def preadC4 : Nat → Option (List Byte) := fun i => some (blocksC4.getD (i - 2) [])

/-- The 6-byte attribute name user.x of the specification example. -/
def userxC2 : List Byte :=
  [⟨117, by omega⟩, ⟨115, by omega⟩, ⟨101, by omega⟩,
   ⟨114, by omega⟩, ⟨46, by omega⟩, ⟨120, by omega⟩]

/-- Concrete directory entry for the C10 witness: name_len is 3 but the
name buffer holds four non-NUL bytes before its first NUL. -/
def direntC10 : DirentRec :=
  ⟨⟨3, by omega⟩, ⟨4, by omega⟩,
   [⟨97, by omega⟩, ⟨98, by omega⟩, ⟨99, by omega⟩, ⟨100, by omega⟩, 0, 0], 7⟩

/-- Canonical always-succeeding positioned read for the C5 witness. -/
def preadC5 : Nat → Except Int (List Byte) := fun _ => .ok (List.replicate 64 0)

/-- A well-formed stored directory entry: the name buffer is exactly 60
bytes, the inode number fits the on-disk 16 bits, name_len is within the
buffer, the name bytes are non-NUL and the rest of the buffer is
NUL-padded. -/
abbrev wfDirent (d : DirentRec) : Prop :=
  d.name.length = 60 ∧ d.ino < 65536 ∧ d.name_len.val ≤ 60 ∧
    (∀ j, j < d.name_len.val → d.name.getD j 0 ≠ 0) ∧
    (∀ j, j < 60 → d.name_len.val ≤ j → d.name.getD j 0 = 0)

/-- The byte stream of a directory inode holding the given entries,
extended by one block of zero padding so that every block-sized read
within the directory size is total. -/
def dirData (BPB : Nat) (es : List DirentRec) : List Byte :=
  (es.map encodeDirent).flatten ++ List.replicate BPB 0

/-- Concrete entry list for the C3 witness: one directory entry named
hello with type DT_DIR and inode number 7. -/
def esC3 : List DirentRec :=
  [⟨⟨5, by omega⟩, ⟨4, by omega⟩,
    [⟨104, by omega⟩, ⟨101, by omega⟩, ⟨108, by omega⟩, ⟨108, by omega⟩,
     ⟨111, by omega⟩] ++ List.replicate 55 0, 7⟩]

/-- Canonical whole-block server of the C3 witness directory data. -/
def preadC3 : Nat → Except Int (List Byte) :=
  fun i => .ok (((dirData 64 esC3).drop i).take 64)

/-- Inode record with zero extended attributes for the C8 witness. -/
def niC8 : InodeInfo := ⟨0, 1, 0, 0, 0, 0, 0⟩

/-- External services for the C8 witness: inode resolution succeeds with
a zero-attribute inode, the attribute-block read fails with -5. -/
def extC8 : Externals :=
  ⟨.ok (), .error (-5), fun _ => none, fun _ => .error (-5),
   fun _ => .ok niC8, fun _ _ => .error (-5), id, fun _ => 0, fun _ _ => 0⟩

/-- Superblock descriptor for the C9 witness: one inode bitmap block at
block 2, one block bitmap block at block 3, all counters consistent. -/
def sbiC9 : SbInfo := ⟨2, 3, 3, 4, 8, 5, 8, 5⟩

/-- External services for the C9 witness: both bitmap blocks hold the
byte 7 (three set bits), matching total - free = 3 for both zones. -/
def extC9 : Externals :=
  ⟨.ok (), .ok sbiC9, fun _ => some [⟨7, by omega⟩], fun _ => .error (-5),
   fun _ => .error (-2), fun _ _ => .error (-5), id, fun _ => 0, fun _ _ => 0⟩

/-- Run configuration for the C9 witness: both bitmap audits requested,
nid left at its default -1. -/
def cfgC9 : FsckCfg := ⟨true, true, -1⟩

/-- Superblock descriptor for the C1 counterexample: the inode bitmap
zone is the single block 2, and the counters claim zero used inodes
(total = free = 8) while the bitmap holds one set bit. -/
def sbiC1 : SbInfo := ⟨2, 3, 3, 4, 8, 8, 8, 8⟩

/-- External services for the C1 counterexample: every bitmap block read
returns the single byte 1 (one set bit). -/
def extC1 : Externals :=
  ⟨.ok (), .ok sbiC1, fun _ => some [⟨1, by omega⟩], fun _ => .error (-5),
   fun _ => .error (-2), fun _ _ => .error (-5), id, fun _ => 0, fun _ _ => 0⟩

/-- Run configuration for the C1 counterexample: both the inode audit
and the block audit are requested. -/
def cfgC1 : FsckCfg := ⟨true, true, -1⟩

/-- External services for the C7 witness. -/
def extC7 : Externals :=
  ⟨.ok (), .ok ⟨2, 3, 3, 4, 8, 5, 8, 5⟩, fun _ => some [⟨7, by omega⟩],
   fun _ => .error (-5), fun _ => .error (-2), fun _ _ => .error (-5), id,
   fun _ => 0, fun _ _ => 0⟩

set_option maxRecDepth 8192 in
/-- The loop of count_bit computes the population count of a byte. -/
theorem count_bit_eq_bitsSet : ∀ b : Byte, count_bit b = bitsSet b.val := by
  decide

/-- Reading a list by positions over its whole range gives the list back. -/
theorem map_getD_range_eq (l : List Byte) :
    (List.range l.length).map (fun i => l.getD i 0) = l := by
  apply List.ext_getElem
  · simp
  · intro i h1 h2
    simp [List.getD_eq_getElem?_getD, List.getElem?_eq_getElem h2]

/-- On a buffer of exactly the block size, numbfs_fsck_used is the total
population count of the buffer. -/
theorem numbfs_fsck_used_eq (BPB : Nat) (buf : List Byte)
    (h : buf.length = BPB) : numbfs_fsck_used BPB buf = regionSetBits buf := by
  unfold numbfs_fsck_used regionSetBits
  subst h
  rw [show (fun i => count_bit (buf.getD i 0)) =
      (fun b => count_bit b) ∘ (fun i => buf.getD i 0) from rfl]
  rw [← List.map_map, map_getD_range_eq]
  congr 1
  exact List.map_congr_left (fun b _ => count_bit_eq_bitsSet b)

/-- Population counts add over concatenation of byte regions. -/
theorem regionSetBits_append (l1 l2 : List Byte) :
    regionSetBits (l1 ++ l2) = regionSetBits l1 + regionSetBits l2 := by
  simp [regionSetBits]

/-- C6: the four fixed on-disk record types have exactly their declared
byte sizes — superblock 128 bytes, inode 64 bytes, directory entry 64
bytes, timestamp block 32 bytes — which is what the build-time assertion
numbfs_check_ondisk checks; a mismatch would be a fatal build error. -/
theorem numbfs_check_ondisk_c6 : numbfs_check_ondisk := by
  refine ⟨?_, ?_, ?_, ?_⟩ <;> decide

/-- The zone loop sums the population counts of the blocks it is served,
one block per index starting at lo. -/
theorem sumBitmapGo_spec (BPB : Nat) (pread : Nat → Option (List Byte)) :
    ∀ (blocks : List (List Byte)) (lo : Nat),
      (∀ b ∈ blocks, b.length = BPB) →
      (∀ j, j < blocks.length → pread (lo + j) = some (blocks.getD j [])) →
      (sumBitmapGo BPB pread lo blocks.length).1 = some (regionSetBits blocks.flatten) := by
  intro blocks
  induction blocks with
  | nil =>
    intro lo _ _
    simp [sumBitmapGo, regionSetBits]
  | cons b bs ih =>
    intro lo hlen hpread
    have h0 : pread lo = some b := by
      have := hpread 0 (by simp)
      simpa using this
    have hrest : ∀ j, j < bs.length → pread (lo + 1 + j) = some (bs.getD j []) := by
      intro j hj
      have := hpread (j + 1) (by simp; omega)
      rw [show lo + (j + 1) = lo + 1 + j by omega] at this
      simpa using this
    have ihv := ih (lo + 1) (fun x hx => hlen x (List.mem_cons_of_mem _ hx)) hrest
    simp only [List.length_cons, sumBitmapGo, h0]
    rw [ihv]
    simp only [Option.map_some']
    rw [numbfs_fsck_used_eq BPB b (hlen b (List.mem_cons_self _ _))]
    rw [List.flatten_cons, regionSetBits_append]

/-- C4: for every bitmap region, however its set bits are distributed
over bytes and blocks, the bitmap auditor of numbfs_fsck computes
exactly the total population count of the region: count_bit is the
per-byte population count, numbfs_fsck_used sums it over a block, and
the zone loop sums the blocks without loss. -/
theorem numbfs_fsck_c4_bitmap_sum (BPB : Nat) (pread : Nat → Option (List Byte))
    (blocks : List (List Byte)) (lo k : Nat)
    (hlen : ∀ b ∈ blocks, b.length = BPB)
    (hpread : ∀ j, j < blocks.length → pread (lo + j) = some (blocks.getD j []))
    (hk : regionSetBits blocks.flatten = k) :
    (sumBitmap BPB pread lo (lo + blocks.length)).1 = some k := by
  unfold sumBitmap
  rw [show lo + blocks.length - lo = blocks.length by omega]
  rw [sumBitmapGo_spec BPB pread blocks lo hlen hpread, hk]

/-- Witness for C4: the region [[129], [7]] has 2 + 3 = 5 set bits spread
over two blocks starting at block 2, and the auditor sums exactly 5. -/
theorem numbfs_fsck_c4_bitmap_sum_witness :
    (∀ b ∈ blocksC4, b.length = 1) ∧
    regionSetBits blocksC4.flatten = 5 ∧
    (sumBitmap 1 preadC4 2 (2 + blocksC4.length)).1 = some 5 :=
  ⟨by decide, by decide,
    numbfs_fsck_c4_bitmap_sum 1 preadC4 blocksC4 2 5 (by decide)
      (by decide) (by decide)⟩

/-- takeWhile takes exactly an initial segment whose elements all satisfy
the predicate when the next element fails it. -/
theorem takeWhile_all_append (p : Byte → Bool) :
    ∀ (l1 : List Byte) (x : Byte) (l2 : List Byte),
      (∀ a ∈ l1, p a = true) → p x = false →
      ((l1 ++ x :: l2).takeWhile p) = l1 := by
  intro l1
  induction l1 with
  | nil =>
    intro x l2 _ hx
    simp [List.takeWhile_cons, hx]
  | cons a l ih =>
    intro x l2 hall hx
    have ha : p a = true := hall a (List.mem_cons_self _ _)
    simp only [List.cons_append, List.takeWhile_cons, ha, if_true]
    rw [ih x l2 (fun b hb => hall b (List.mem_cons_of_mem _ hb)) hx]

/-- C2 counterexample: with the spec's own example, a name of 6 bytes
(user.x), the rendered name field of numbfs_dump_xattrs is not 16
characters wide: the buffer's final byte is the NUL terminator, so
printf renders only 15 characters. -/
theorem numbfs_xattr_render_c2_counterexample :
    ¬ ((numbfs_xattr_render 16 6
        [⟨117, by omega⟩, ⟨115, by omega⟩, ⟨101, by omega⟩,
         ⟨114, by omega⟩, ⟨46, by omega⟩, ⟨120, by omega⟩]).length = 16) := by
  decide

/-- C2 amended: for every valid slot whose field length is strictly below
the buffer width, the rendered field consists of the field bytes
left-aligned followed by ASCII spaces, but its total width is width - 1
(15 characters for the name, 31 for the value), because the final buffer
byte is kept as the NUL terminator by the front = width - len - 1 padding
count. -/
theorem numbfs_xattr_render_c2_amended (width len : Nat) (src : List Byte)
    (hlt : len + 1 ≤ width) (hnz : ∀ j, j < len → src.getD j 0 ≠ 0) :
    numbfs_xattr_render width len src =
      (List.range len).map (fun j => src.getD j 0) ++
        List.replicate (width - 1 - len) 32 ∧
    (numbfs_xattr_render width len src).length = width - 1 := by
  obtain ⟨w, rfl⟩ : ∃ w, width = w + 1 := ⟨width - 1, by omega⟩
  have hlw : len ≤ w := by omega
  have hsplit : List.range (w + 1) = List.range w ++ [w] := by
    simpa using List.range_succ w
  have hbody : numbfs_xattr_pad (w + 1) len src =
      (List.range w).map (fun j =>
        if j < len then src.getD j 0
        else if j + 1 < w + 1 then (32 : Byte) else 0) ++ [(0 : Byte)] := by
    unfold numbfs_xattr_pad
    rw [hsplit, List.map_append]
    congr 1
    simp only [List.map_cons, List.map_nil]
    congr 1
    rw [if_neg (by omega), if_neg (by omega)]
  have hmain : numbfs_xattr_render (w + 1) len src =
      (List.range w).map (fun j =>
        if j < len then src.getD j 0
        else if j + 1 < w + 1 then (32 : Byte) else 0) := by
    unfold numbfs_xattr_render
    rw [hbody]
    apply takeWhile_all_append
    · intro a ha
      rw [List.mem_map] at ha
      obtain ⟨j, hj, rfl⟩ := ha
      rw [List.mem_range] at hj
      by_cases hjl : j < len
      · simp only [if_pos hjl, bne_iff_ne]
        exact hnz j hjl
      · rw [if_neg hjl, if_pos (by omega)]
        decide
    · decide
  have hr : List.range w = List.range len ++ (List.range (w - len)).map (fun x => len + x) := by
    have h := List.range_add len (w - len)
    rwa [show len + (w - len) = w from by omega] at h
  have s1 : (List.range len).map (fun j =>
        if j < len then src.getD j 0
        else if j + 1 < w + 1 then (32 : Byte) else 0) =
      (List.range len).map (fun j => src.getD j 0) :=
    List.map_congr_left (fun j hj => by
      rw [List.mem_range] at hj
      rw [if_pos hj])
  have s2 : ((List.range (w - len)).map (fun x => len + x)).map (fun j =>
        if j < len then src.getD j 0
        else if j + 1 < w + 1 then (32 : Byte) else 0) =
      List.replicate (w - len) (32 : Byte) := by
    rw [List.map_map, List.eq_replicate_iff]
    refine ⟨by simp, ?_⟩
    intro b hb
    rw [List.mem_map] at hb
    obtain ⟨j, hj, rfl⟩ := hb
    rw [List.mem_range] at hj
    simp only [Function.comp_apply]
    rw [if_neg (by omega), if_pos (by omega)]
  have hshape : (List.range w).map (fun j =>
        if j < len then src.getD j 0
        else if j + 1 < w + 1 then (32 : Byte) else 0) =
      (List.range len).map (fun j => src.getD j 0) ++
        List.replicate (w - len) 32 := by
    rw [hr, List.map_append, s1, s2]
  constructor
  · rw [hmain, hshape, show w + 1 - 1 - len = w - len from by omega]
  · rw [hmain]
    simp

/-- Witness for the amended C2: on the spec's example slot (name user.x
of 6 bytes) the rendered name field is the 6 name bytes followed by 9
spaces, 15 characters in total. -/
theorem numbfs_xattr_render_c2_amended_witness :
    6 + 1 ≤ 16 ∧
    numbfs_xattr_render 16 6 userxC2 =
      (List.range 6).map (fun j => userxC2.getD j 0) ++
        List.replicate (16 - 1 - 6) 32 ∧
    (numbfs_xattr_render 16 6 userxC2).length = 16 - 1 :=
  ⟨by omega,
   (numbfs_xattr_render_c2_amended 16 6 userxC2 (by omega) (by decide)).1,
   (numbfs_xattr_render_c2_amended 16 6 userxC2 (by omega) (by decide)).2⟩

/-- When every element up to position n satisfies the predicate,
takeWhile keeps strictly more than n elements and agrees with the list
on the first n + 1 positions. -/
theorem takeWhile_keeps_through (p : Byte → Bool) :
    ∀ (l : List Byte) (n : Nat),
      (∀ j, j ≤ n → j < l.length → p (l.getD j 0) = true) → n < l.length →
      n + 1 ≤ (l.takeWhile p).length ∧
        (l.takeWhile p).take (n + 1) = l.take (n + 1) := by
  intro l
  induction l with
  | nil =>
    intro n _ h
    simp at h
  | cons x xs ih =>
    intro n hall hn
    have hx : p x = true := by
      have := hall 0 (by omega) (by simp)
      simpa using this
    rw [List.takeWhile_cons_of_pos hx]
    match n with
    | 0 =>
      exact ⟨Nat.succ_le_succ (Nat.zero_le _), rfl⟩
    | m + 1 =>
      have hxs : ∀ j, j ≤ m → j < xs.length → p (xs.getD j 0) = true := by
        intro j hj hjl
        have := hall (j + 1) (by omega) (by simp; omega)
        simpa using this
      have hm : m < xs.length := by
        simp at hn
        omega
      obtain ⟨ih1, ih2⟩ := ih m hxs hm
      refine ⟨by simp; omega, ?_⟩
      rw [show m + 1 + 1 = (m + 1) + 1 from rfl]
      rw [List.take_succ_cons, List.take_succ_cons, ih2]

/-- C10: the rendered NAME of a directory entry is not truncated at
name_len.  Whenever the first name_len bytes of the 60-byte name buffer
are non-NUL and the byte at position name_len is also non-NUL (the
buffer is not NUL-terminated at name_len), the printed name is strictly
longer than name_len while reproducing the first name_len bytes, i.e. it
includes buffer bytes beyond name_len. -/
theorem renderDirName_c10 (d : DirentRec)
    (hlen : d.name_len.val < d.name.length)
    (hpre : ∀ j, j < d.name_len.val → d.name.getD j 0 ≠ 0)
    (hat : d.name.getD d.name_len.val 0 ≠ 0) :
    d.name_len.val < (renderDirName d).length ∧
      (renderDirName d).take d.name_len.val = d.name.take d.name_len.val := by
  have hall : ∀ j, j ≤ d.name_len.val → j < d.name.length →
      (fun b => b != 0) (d.name.getD j 0) = true := by
    intro j hj _
    simp only [bne_iff_ne, ne_eq]
    rcases Nat.lt_or_ge j d.name_len.val with h | h
    · exact hpre j h
    · have : j = d.name_len.val := by omega
      rw [this]
      exact hat
  obtain ⟨h1, h2⟩ := takeWhile_keeps_through (fun b => b != 0) d.name
    d.name_len.val hall hlen
  refine ⟨by unfold renderDirName; omega, ?_⟩
  have e1 : (renderDirName d).take d.name_len.val =
      ((renderDirName d).take (d.name_len.val + 1)).take d.name_len.val := by
    rw [List.take_take]
    congr 1
    omega
  rw [e1]
  unfold renderDirName
  rw [h2, List.take_take]
  congr 1
  omega

/-- Witness for C10: on the concrete entry the printed NAME keeps more
than name_len = 3 bytes and reproduces the first 3 bytes. -/
theorem renderDirName_c10_witness :
    3 < (renderDirName direntC10).length ∧
      (renderDirName direntC10).take 3 = direntC10.name.take 3 :=
  renderDirName_c10 direntC10 (by decide) (by decide) (by decide)

/-- When every positioned read succeeds, the directory listing loop
emits one line per stride of 64 bytes below size and returns 0: from
offset i it emits (size - i + 63) / 64 lines. -/
theorem dir_walk_go_count (BPB : Nat) (pread : Nat → Except Int (List Byte))
    (preadBlk : Nat → Nat) (size : Nat)
    (hp : ∀ i, ∃ b, pread i = .ok b) :
    ∀ (fuel i : Nat) (buf : List Byte), size ≤ i + fuel →
      (numbfs_dir_walk_go BPB pread preadBlk size fuel i buf).1.length =
          (size - i + 63) / 64 ∧
        (numbfs_dir_walk_go BPB pread preadBlk size fuel i buf).2.1 = 0 := by
  intro fuel
  induction fuel with
  | zero =>
    intro i buf h
    simp only [numbfs_dir_walk_go, List.length_nil]
    constructor
    · omega
    · trivial
  | succ f ihf =>
    intro i buf h
    by_cases hlt : i < size
    · by_cases hb : i % BPB = 0
      · obtain ⟨b, hb2⟩ := hp i
        simp only [numbfs_dir_walk_go, if_pos hlt, if_pos hb, hb2]
        obtain ⟨l1, l2⟩ := ihf (i + 64) b (by omega)
        constructor
        · simp only [List.length_cons]
          rw [l1]
          omega
        · exact l2
      · simp only [numbfs_dir_walk_go, if_pos hlt, if_neg hb]
        obtain ⟨l1, l2⟩ := ihf (i + 64) buf (by omega)
        constructor
        · simp only [List.length_cons]
          rw [l1]
          omega
        · exact l2
    · simp only [numbfs_dir_walk_go, if_neg hlt]
      constructor
      · simp only [List.length_nil]
        omega
      · trivial

/-- C5: for a directory inode whose size is not an exact multiple of 64,
the walker still emits the trailing incomplete record: it yields
ceil(size / 64) = size / 64 + 1 entries in total (the loop runs exactly
while the running offset is below the declared size, so it stops as soon
as the offset reaches or exceeds it) and returns 0 when all positioned
reads succeed. -/
theorem numbfs_dir_walk_c5_partial (BPB : Nat)
    (pread : Nat → Except Int (List Byte)) (preadBlk : Nat → Nat) (size : Nat)
    (h64 : ¬ (64 ∣ size)) (hp : ∀ i, ∃ b, pread i = .ok b) :
    (numbfs_dir_walk BPB pread preadBlk size).1.length = size / 64 + 1 ∧
      (numbfs_dir_walk BPB pread preadBlk size).1.length = (size + 63) / 64 ∧
      (numbfs_dir_walk BPB pread preadBlk size).2.1 = 0 := by
  obtain ⟨h1, h2⟩ := dir_walk_go_count BPB pread preadBlk size hp size 0
    (List.replicate BPB 0) (by omega)
  unfold numbfs_dir_walk
  refine ⟨?_, ?_, h2⟩
  · rw [h1]
    omega
  · rw [h1]
    omega

/-- Witness for C5: a directory inode of size 65 (not a multiple of 64)
yields 65 / 64 + 1 = 2 entries, the second being the trailing incomplete
record. -/
theorem numbfs_dir_walk_c5_partial_witness :
    ¬ (64 ∣ 65) ∧
    (numbfs_dir_walk 64 preadC5 (fun i => i / 64) 65).1.length = 65 / 64 + 1 ∧
      (numbfs_dir_walk 64 preadC5 (fun i => i / 64) 65).1.length = (65 + 63) / 64 ∧
      (numbfs_dir_walk 64 preadC5 (fun i => i / 64) 65).2.1 = 0 :=
  ⟨by decide,
   numbfs_dir_walk_c5_partial 64 preadC5 (fun i => i / 64) 65 (by decide)
     (fun _ => ⟨List.replicate 64 0, rfl⟩)⟩

/-- An encoded directory entry occupies exactly 64 bytes. -/
theorem encodeDirent_length (d : DirentRec) (h : d.name.length = 60) :
    (encodeDirent d).length = 64 := by
  simp [encodeDirent, h]

/-- The concatenated encodings of n entries occupy 64 * n bytes. -/
theorem flatten_encode_length (l : List DirentRec)
    (h : ∀ d ∈ l, d.name.length = 60) :
    ((l.map encodeDirent).flatten).length = 64 * l.length := by
  induction l with
  | nil => simp
  | cons d rest ih =>
    simp only [List.map_cons, List.flatten_cons, List.length_append, List.length_cons]
    rw [ih (fun x hx => h x (List.mem_cons_of_mem _ hx))]
    rw [encodeDirent_length d (h d (List.mem_cons_self _ _))]
    omega

/-- Decoding inverts encoding on well-formed directory entries. -/
theorem decode_encode (d : DirentRec) (h60 : d.name.length = 60)
    (hino : d.ino < 65536) : decode_dirent (encodeDirent d) = d := by
  cases d with
  | mk nl ty nm ino =>
  have h60x : nm.length = 60 := h60
  have hinox : ino < 65536 := hino
  have hform : encodeDirent ⟨nl, ty, nm, ino⟩ =
      (nl :: ty :: nm) ++ [byteOf ino, byteOf (ino / 256)] := by
    simp [encodeDirent]
  have hlen62 : (nl :: ty :: nm).length = 62 := by simp [h60x]
  unfold decode_dirent
  rw [hform]
  have g2 : (((nl :: ty :: nm) ++ [byteOf ino, byteOf (ino / 256)]).drop 2).take 60
      = nm := by
    have hdrop : ((nl :: ty :: nm) ++ [byteOf ino, byteOf (ino / 256)]).drop 2 =
        nm ++ [byteOf ino, byteOf (ino / 256)] := rfl
    rw [hdrop, List.take_left' h60x]
  have g3 : leDecode ((((nl :: ty :: nm) ++
      [byteOf ino, byteOf (ino / 256)]).drop 62).take 2) = ino := by
    rw [List.drop_left' hlen62]
    simp only [List.take, leDecode, List.foldr, byteOf]
    omega
  rw [g2, g3]
  simp

/-- The 64-byte window of the directory data at the boundary of the
chosen entry is exactly that entry's encoding. -/
theorem dirData_window (BPB : Nat) (es pre suf : List DirentRec) (d : DirentRec)
    (hes : es = pre ++ d :: suf) (hwf : ∀ x ∈ es, x.name.length = 60) :
    ((dirData BPB es).drop (64 * pre.length)).take 64 = encodeDirent d := by
  subst hes
  unfold dirData
  have hpre : ∀ x ∈ pre, x.name.length = 60 := fun x hx => hwf x (by simp [hx])
  have hlenpre : ((pre.map encodeDirent).flatten).length = 64 * pre.length :=
    flatten_encode_length pre hpre
  rw [List.map_append, List.flatten_append, List.append_assoc,
    List.drop_left' hlenpre]
  simp only [List.map_cons, List.flatten_cons]
  rw [List.append_assoc, List.take_left' (encodeDirent_length d
    (hwf d (by simp)))]

/-- The offset within a block of a 64-aligned offset leaves room for a
64-byte window when the block size is a multiple of 64. -/
theorem stride_mod_le (BPB i : Nat) (hpos : 0 < BPB) (h64 : 64 ∣ BPB)
    (hi : 64 ∣ i) : i % BPB + 64 ≤ BPB := by
  have h1 : i % BPB < BPB := Nat.mod_lt _ hpos
  have h2 : 64 ∣ i % BPB := (Nat.dvd_mod_iff h64).mpr hi
  obtain ⟨a, ha⟩ := h2
  obtain ⟨b, hb⟩ := h64
  omega

/-- The directory listing loop, run over a directory whose data is the
encoding of a list of well-formed entries served in whole blocks, prints
exactly the lines of the remaining entries: the induction carries the
invariant that away from block boundaries the buffer still holds the
current block. -/
theorem dir_walk_go_spec (BPB : Nat) (hpos : 0 < BPB) (h64 : 64 ∣ BPB)
    (pread : Nat → Except Int (List Byte)) (preadBlk : Nat → Nat)
    (es : List DirentRec) (hwf : ∀ d ∈ es, d.name.length = 60 ∧ d.ino < 65536)
    (hpread : ∀ i, i % BPB = 0 → i < 64 * es.length →
      pread i = .ok (((dirData BPB es).drop i).take BPB)) :
    ∀ (suf pre : List DirentRec) (fuel i : Nat) (buf : List Byte),
      es = pre ++ suf → i = 64 * pre.length → 64 * es.length ≤ i + fuel →
      (i % BPB ≠ 0 → buf = ((dirData BPB es).drop (BPB * (i / BPB))).take BPB) →
      (numbfs_dir_walk_go BPB pread preadBlk (64 * es.length) fuel i buf).1 =
          suf.map mkDirLine ∧
        (numbfs_dir_walk_go BPB pread preadBlk (64 * es.length) fuel i buf).2.1 = 0 := by
  intro suf
  induction suf with
  | nil =>
    intro pre fuel i buf hes hi hfuel hinv
    have hsize : 64 * es.length = i := by
      rw [hes, hi]
      simp
    match fuel with
    | 0 => simp [numbfs_dir_walk_go]
    | f + 1 =>
      simp only [numbfs_dir_walk_go, if_neg (by omega : ¬ i < 64 * es.length)]
      exact ⟨rfl, trivial⟩
  | cons d rest ih =>
    intro pre fuel i buf hes hi hfuel hinv
    have hlen : es.length = pre.length + (rest.length + 1) := by
      rw [hes]
      simp
    have hlt : i < 64 * es.length := by omega
    obtain ⟨f, rfl⟩ : ∃ f, fuel = f + 1 := ⟨fuel - 1, by omega⟩
    have hdvd_i : (64 : Nat) ∣ i := ⟨pre.length, hi⟩
    have h64le : 64 ≤ BPB := by
      obtain ⟨b, hb2⟩ := h64
      omega
    have hdm := Nat.div_add_mod i BPB
    have hwf60 : ∀ x ∈ es, x.name.length = 60 := fun x hx => (hwf x hx).1
    have hdmem : d ∈ es := by
      rw [hes]
      simp
    have hwin : ((dirData BPB es).drop i).take 64 = encodeDirent d := by
      rw [hi]
      exact dirData_window BPB es pre rest d hes hwf60
    have hdec : decode_dirent (encodeDirent d) = d :=
      decode_encode d (hwf d hdmem).1 (hwf d hdmem).2
    have hes2 : es = (pre ++ [d]) ++ rest := by
      rw [hes]
      simp
    have hi2 : i + 64 = 64 * (pre ++ [d]).length := by
      simp [List.length_append]
      omega
    have hfuel2 : 64 * es.length ≤ i + 64 + f := by omega
    by_cases hb : i % BPB = 0
    · have hpr := hpread i hb hlt
      have hq : BPB * (i / BPB) = i := by omega
      have hBwin : (((((dirData BPB es).drop i).take BPB)).drop (i % BPB)).take 64 =
          encodeDirent d := by
        rw [hb, List.drop_zero, List.take_take,
          show (64 ⊓ BPB) = 64 from by omega]
        exact hwin
      have hinv2 : (i + 64) % BPB ≠ 0 →
          ((dirData BPB es).drop i).take BPB =
            ((dirData BPB es).drop (BPB * ((i + 64) / BPB))).take BPB := by
        intro hne
        have hlt64 : 64 < BPB := by
          rcases Nat.lt_or_ge 64 BPB with h | h
          · exact h
          · exfalso
            apply hne
            have hBPB64 : BPB = 64 := by omega
            subst hBPB64
            omega
        have hdiv : (i + 64) / BPB = i / BPB := by
          rw [show i + 64 = BPB * (i / BPB) + 64 from by omega,
            Nat.mul_add_div hpos, Nat.div_eq_of_lt hlt64]
          omega
        rw [hdiv, hq]
      obtain ⟨ih1, ih2⟩ := ih (pre ++ [d]) f (i + 64)
        (((dirData BPB es).drop i).take BPB) hes2 hi2 hfuel2 hinv2
      simp only [numbfs_dir_walk_go, if_pos hlt, if_pos hb, hpr]
      refine ⟨?_, ih2⟩
      rw [List.map_cons]
      rw [hBwin, hdec, ih1]
    · have hbuf := hinv hb
      have hr64 : i % BPB + 64 ≤ BPB := stride_mod_le BPB i hpos h64 hdvd_i
      have hwin2 : ((buf.drop (i % BPB)).take 64) = encodeDirent d := by
        rw [hbuf, List.drop_take, List.take_take,
          show (64 ⊓ (BPB - i % BPB)) = 64 from by omega,
          List.drop_drop,
          show BPB * (i / BPB) + i % BPB = i from hdm]
        exact hwin
      have hinv2 : (i + 64) % BPB ≠ 0 →
          buf = ((dirData BPB es).drop (BPB * ((i + 64) / BPB))).take BPB := by
        intro hne
        have hlt2 : i % BPB + 64 < BPB := by
          rcases Nat.lt_or_ge (i % BPB + 64) BPB with h | h
          · exact h
          · exfalso
            apply hne
            have heq : i % BPB + 64 = BPB := by omega
            have hform : i + 64 = BPB * (i / BPB + 1) := by
              rw [Nat.mul_add, Nat.mul_one]
              omega
            rw [hform, Nat.mul_mod_right]
        have hdiv : (i + 64) / BPB = i / BPB := by
          rw [show i + 64 = BPB * (i / BPB) + (i % BPB + 64) from by omega,
            Nat.mul_add_div hpos, Nat.div_eq_of_lt hlt2]
          omega
        rw [hdiv]
        exact hbuf
      obtain ⟨ih1, ih2⟩ := ih (pre ++ [d]) f (i + 64) buf hes2 hi2 hfuel2 hinv2
      simp only [numbfs_dir_walk_go, if_pos hlt, if_neg hb]
      refine ⟨?_, ih2⟩
      rw [List.map_cons]
      rw [hwin2, hdec, ih1]

/-- On a NUL-padded buffer whose first n bytes are non-NUL, takeWhile of
non-NUL is exactly the first n bytes. -/
theorem takeWhile_eq_take_of_padded :
    ∀ (l : List Byte) (n : Nat), n ≤ l.length →
      (∀ j, j < n → l.getD j 0 ≠ 0) →
      (∀ j, j < l.length → n ≤ j → l.getD j 0 = 0) →
      l.takeWhile (fun b => b != 0) = l.take n := by
  intro l
  induction l with
  | nil =>
    intro n _ _ _
    simp
  | cons x xs ih =>
    intro n hle h1 h2
    match n with
    | 0 =>
      have hx : x = 0 := by
        have := h2 0 (by simp) (by omega)
        simpa using this
      rw [@List.takeWhile_cons_of_neg _ (fun b => b != 0) x xs (by simp [hx]),
        List.take_zero]
    | m + 1 =>
      have hx : (fun b => b != 0) x = true := by
        have := h1 0 (by omega)
        simpa using this
      rw [@List.takeWhile_cons_of_pos _ (fun b => b != 0) x xs hx,
        List.take_succ_cons]
      rw [ih m (by simp at hle; omega)
        (fun j hj => by
          have := h1 (j + 1) (by omega)
          simpa using this)
        (fun j hjl hjn => by
          have := h2 (j + 1) (by simp; omega) (by omega)
          simpa using this)]

/-- On a well-formed entry the printed NAME is exactly the stored name
of length name_len. -/
theorem renderDirName_of_wf (d : DirentRec) (hwf : wfDirent d) :
    renderDirName d = d.name.take d.name_len.val := by
  obtain ⟨h60, _, hle, h1, h2⟩ := hwf
  unfold renderDirName
  exact takeWhile_eq_take_of_padded d.name d.name_len.val (by omega) h1
    (fun j hjl hjn => h2 j (by omega) hjn)

/-- C3: for every directory inode whose size is n times 64 bytes holding
n well-formed 64-byte directory entries served in whole blocks, the
directory walker yields exactly n lines, in storage order, each
reproducing the stored entry: its inode number, its type rendered by
numbfs_dir_type, its name_len, and its stored name of length name_len. -/
theorem numbfs_dir_walk_c3 (BPB : Nat) (hpos : 0 < BPB) (h64 : 64 ∣ BPB)
    (pread : Nat → Except Int (List Byte)) (preadBlk : Nat → Nat)
    (es : List DirentRec) (hwf : ∀ d ∈ es, wfDirent d)
    (hpread : ∀ i, i % BPB = 0 → i < 64 * es.length →
      pread i = .ok (((dirData BPB es).drop i).take BPB)) :
    (numbfs_dir_walk BPB pread preadBlk (64 * es.length)).1 =
        es.map (fun d => OutLine.dirLine d.ino (numbfs_dir_type d.typ) d.name_len
          (d.name.take d.name_len.val)) ∧
      (numbfs_dir_walk BPB pread preadBlk (64 * es.length)).2.1 = 0 := by
  obtain ⟨h1, h2⟩ := dir_walk_go_spec BPB hpos h64 pread preadBlk es
    (fun d hd => ⟨(hwf d hd).1, (hwf d hd).2.1⟩) hpread es [] (64 * es.length)
    0 (List.replicate BPB 0) (by simp) (by simp)
    (by omega) (fun h => absurd (Nat.zero_mod BPB) h)
  unfold numbfs_dir_walk
  refine ⟨?_, h2⟩
  rw [h1]
  apply List.map_congr_left
  intro d hd
  unfold mkDirLine
  rw [renderDirName_of_wf d (hwf d hd)]

/-- Witness for C3: with block size 64 and the single well-formed entry,
the walker prints exactly the one stored entry and returns 0. -/
theorem numbfs_dir_walk_c3_witness :
    (numbfs_dir_walk 64 preadC3 (fun i => i / 64) (64 * esC3.length)).1 =
        esC3.map (fun d => OutLine.dirLine d.ino (numbfs_dir_type d.typ) d.name_len
          (d.name.take d.name_len.val)) ∧
      (numbfs_dir_walk 64 preadC3 (fun i => i / 64) (64 * esC3.length)).2.1 = 0 :=
  numbfs_dir_walk_c3 64 (by omega) (by omega) preadC3 (fun i => i / 64) esC3
    (by decide) (fun i _ _ => rfl)

/-- C8: for every inode, if reading the attribute block addressed by the
inode fails, numbfs_fsck_show_inode returns that error before printing
any line of the inode report — the read is unconditional, so this holds
even when the inode has zero extended attributes, and the entire inode
detail section is suppressed. -/
theorem numbfs_fsck_show_inode_c8 (BPB : Nat) (ext : Externals) (nid : Int)
    (ni : InodeInfo) (e : Int)
    (hget : ext.get_inode nid = .ok ni)
    (hread : ext.read_block (ext.data_blk ni.xattr_start) = .error e) :
    (numbfs_fsck_show_inode BPB ext nid).1 = [] ∧
      (numbfs_fsck_show_inode BPB ext nid).2.1 = e := by
  simp only [numbfs_fsck_show_inode, hget, hread]
  exact ⟨trivial, trivial⟩

/-- Witness for C8: with the attribute-block read failing on an inode
having zero extended attributes, nothing of the inode report is printed
and the error is returned. -/
theorem numbfs_fsck_show_inode_c8_witness :
    extC8.get_inode 3 = .ok niC8 ∧ niC8.xattr_count = 0 ∧
    extC8.read_block (extC8.data_blk niC8.xattr_start) = .error (-5) ∧
    (numbfs_fsck_show_inode 64 extC8 3).1 = [] ∧
      (numbfs_fsck_show_inode 64 extC8 3).2.1 = -5 :=
  ⟨rfl, rfl, rfl, numbfs_fsck_show_inode_c8 64 extC8 3 niC8 (-5) rfl rfl⟩

/-- C9: for every run in which the parsed nid is negative (the nid
option is absent, leaving the default -1, or it parsed to a negative
value), the single-inode detail section is skipped entirely — no inode
detail section is emitted and no inode line is printed — and the run
still exits with code 0 when the superblock read and any requested
bitmap checks succeed. -/
theorem numbfs_fsck_c9_skip_inode (BPB : Nat) (cfg : FsckCfg) (ext : Externals)
    (sbi : SbInfo)
    (hopen : ext.openDev = .ok ())
    (hsb : ext.getSuperblock = .ok sbi)
    (hnid : cfg.nid < 0)
    (hic : cfg.show_inodes = true →
      (numbfs_fsck_bitmap_check BPB ext.pread sbi.ibitmap_start sbi.inode_start
        sbi.total_inodes sbi.free_inodes).1 = none)
    (hbc : cfg.show_blocks = true →
      (numbfs_fsck_bitmap_check BPB ext.pread sbi.bbitmap_start sbi.data_start
        sbi.data_blocks sbi.free_blocks).1 = none) :
    (numbfs_fsck BPB cfg ext).result = .exitCode 0 ∧
      RSection.inodeDetail ∉ (numbfs_fsck BPB cfg ext).sections ∧
      (numbfs_fsck BPB cfg ext).inode_lines = [] := by
  have hn : ¬ (0 ≤ cfg.nid) := by omega
  by_cases hsi : cfg.show_inodes
  · by_cases hsb2 : cfg.show_blocks
    · simp [numbfs_fsck, hopen, hsb, hsi, hsb2, hic hsi, hbc hsb2, hn]
    · simp [numbfs_fsck, hopen, hsb, hsi, hsb2, hic hsi, hn]
  · by_cases hsb2 : cfg.show_blocks
    · simp [numbfs_fsck, hopen, hsb, hsi, hsb2, hbc hsb2, hn]
    · simp [numbfs_fsck, hopen, hsb, hsi, hsb2, hn]

/-- Witness for C9: with nid = -1 and both bitmap checks passing, the
run exits 0, emits no inode detail section and prints no inode line. -/
theorem numbfs_fsck_c9_skip_inode_witness :
    cfgC9.nid < 0 ∧
    (numbfs_fsck_bitmap_check 1 extC9.pread sbiC9.ibitmap_start sbiC9.inode_start
        sbiC9.total_inodes sbiC9.free_inodes).1 = none ∧
    (numbfs_fsck 1 cfgC9 extC9).result = .exitCode 0 ∧
      RSection.inodeDetail ∉ (numbfs_fsck 1 cfgC9 extC9).sections ∧
      (numbfs_fsck 1 cfgC9 extC9).inode_lines = [] :=
  ⟨by decide, by decide,
    numbfs_fsck_c9_skip_inode 1 cfgC9 extC9 sbiC9 rfl rfl (by decide)
      (fun _ => by decide) (fun _ => by decide)⟩

/-- C1 counterexample: on a run requesting both bitmap audits where the
inode-zone count (1) disagrees with total - free (0), the BUG_ON hard
assertion halts the whole run: the block usage section — a remaining
report section the claim says still executes — is never emitted. -/
theorem numbfs_fsck_c1_counterexample :
    (numbfs_fsck 1 cfgC1 extC1).result = FsckResult.abort ∧
      RSection.blockUsage ∉ (numbfs_fsck 1 cfgC1 extC1).sections ∧
      RSection.inodeDetail ∉ (numbfs_fsck 1 cfgC1 extC1).sections := by
  decide

/-- C1 amended: the used-count computed by summing set bits over a
bitmap zone is required to equal total - free from the superblock for
that zone, but on a mismatch the BUG_ON hard assertion makes the
verification failure fatal for the entire run, not only for that check:
the process halts, the superblock summary already printed is retained,
and no further report section (block usage, inode detail) executes.
The first conjunct covers a mismatch in the inode zone, the second a
mismatch in the block zone. -/
theorem numbfs_fsck_c1_amended (BPB : Nat) (cfg : FsckCfg) (ext : Externals)
    (sbi : SbInfo) (cnt : Nat) :
    (ext.openDev = .ok () → ext.getSuperblock = .ok sbi →
      cfg.show_inodes = true →
      (sumBitmap BPB ext.pread sbi.ibitmap_start sbi.inode_start).1 = some cnt →
      (cnt : Int) ≠ (sbi.total_inodes : Int) - (sbi.free_inodes : Int) →
      (numbfs_fsck BPB cfg ext).result = FsckResult.abort ∧
        (numbfs_fsck BPB cfg ext).sections = [RSection.superblock] ∧
        RSection.blockUsage ∉ (numbfs_fsck BPB cfg ext).sections ∧
        RSection.inodeDetail ∉ (numbfs_fsck BPB cfg ext).sections) ∧
    (ext.openDev = .ok () → ext.getSuperblock = .ok sbi →
      cfg.show_inodes = false → cfg.show_blocks = true →
      (sumBitmap BPB ext.pread sbi.bbitmap_start sbi.data_start).1 = some cnt →
      (cnt : Int) ≠ (sbi.data_blocks : Int) - (sbi.free_blocks : Int) →
      (numbfs_fsck BPB cfg ext).result = FsckResult.abort ∧
        (numbfs_fsck BPB cfg ext).sections = [RSection.superblock] ∧
        RSection.blockUsage ∉ (numbfs_fsck BPB cfg ext).sections ∧
        RSection.inodeDetail ∉ (numbfs_fsck BPB cfg ext).sections) := by
  constructor
  · intro hopen hsb hsi hsum hne
    have hchk : (numbfs_fsck_bitmap_check BPB ext.pread sbi.ibitmap_start
        sbi.inode_start sbi.total_inodes sbi.free_inodes).1 =
        some FsckResult.abort := by
      simp only [numbfs_fsck_bitmap_check, hsum]
      rw [if_neg hne]
    refine ⟨?_, ?_, ?_, ?_⟩ <;>
      simp [numbfs_fsck, hopen, hsb, hsi, hchk]
  · intro hopen hsb hsi hsb2 hsum hne
    have hchk : (numbfs_fsck_bitmap_check BPB ext.pread sbi.bbitmap_start
        sbi.data_start sbi.data_blocks sbi.free_blocks).1 =
        some FsckResult.abort := by
      simp only [numbfs_fsck_bitmap_check, hsum]
      rw [if_neg hne]
    refine ⟨?_, ?_, ?_, ?_⟩ <;>
      simp [numbfs_fsck, hopen, hsb, hsi, hsb2, hchk]

/-- Witness for the amended C1: on the concrete mismatching run the
computed count 1 differs from total - free = 0, the run aborts and only
the superblock section is emitted. -/
theorem numbfs_fsck_c1_amended_witness :
    (sumBitmap 1 extC1.pread sbiC1.ibitmap_start sbiC1.inode_start).1 = some 1 ∧
    ((1 : Nat) : Int) ≠ (sbiC1.total_inodes : Int) - (sbiC1.free_inodes : Int) ∧
    ((numbfs_fsck 1 cfgC1 extC1).result = FsckResult.abort ∧
      (numbfs_fsck 1 cfgC1 extC1).sections = [RSection.superblock] ∧
      RSection.blockUsage ∉ (numbfs_fsck 1 cfgC1 extC1).sections ∧
      RSection.inodeDetail ∉ (numbfs_fsck 1 cfgC1 extC1).sections) :=
  ⟨by decide, by decide,
    (numbfs_fsck_c1_amended 1 cfgC1 extC1 sbiC1 1).1 rfl rfl rfl (by decide)
      (by decide)⟩

/-- Every device operation of the bitmap zone loop is a read. -/
theorem sumBitmapGo_reads (BPB : Nat) (pread : Nat → Option (List Byte)) :
    ∀ (fuel i : Nat), ∀ op ∈ (sumBitmapGo BPB pread i fuel).2,
      op.isRead = true := by
  intro fuel
  induction fuel with
  | zero =>
    intro i op hop
    simp [sumBitmapGo] at hop
  | succ f ih =>
    intro i op hop
    simp only [sumBitmapGo] at hop
    cases hpr : pread i with
    | none =>
      rw [hpr] at hop
      simp at hop
      subst hop
      rfl
    | some buf =>
      rw [hpr] at hop
      simp at hop
      rcases hop with rfl | hop2
      · rfl
      · exact ih (i + 1) op hop2

/-- Every device operation of one bitmap zone audit is a read. -/
theorem bitmap_check_reads (BPB : Nat) (pread : Nat → Option (List Byte))
    (lo hi total free : Nat) :
    ∀ op ∈ (numbfs_fsck_bitmap_check BPB pread lo hi total free).2,
      op.isRead = true := by
  intro op hop
  cases hs : (sumBitmap BPB pread lo hi).1 with
  | none =>
    simp only [numbfs_fsck_bitmap_check, hs] at hop
    exact sumBitmapGo_reads BPB pread (hi - lo) lo op hop
  | some cnt =>
    by_cases hc : (cnt : Int) = (total : Int) - (free : Int)
    · simp only [numbfs_fsck_bitmap_check, hs, if_pos hc] at hop
      exact sumBitmapGo_reads BPB pread (hi - lo) lo op hop
    · simp only [numbfs_fsck_bitmap_check, hs, if_neg hc] at hop
      exact sumBitmapGo_reads BPB pread (hi - lo) lo op hop

/-- Every device operation of the attribute dump is a read. -/
theorem dump_xattrs_reads (BPB : Nat) (rb : Nat → Except Int (List Byte))
    (blk cnt : Nat) :
    ∀ op ∈ (numbfs_dump_xattrs BPB rb blk cnt).2, op.isRead = true := by
  intro op hop
  unfold numbfs_dump_xattrs at hop
  by_cases h : cnt = 0
  · rw [if_pos h] at hop
    simp at hop
  · rw [if_neg h] at hop
    cases hrb : rb blk with
    | error e =>
      rw [hrb] at hop
      simp at hop
      subst hop
      rfl
    | ok buf =>
      rw [hrb] at hop
      simp at hop
      subst hop
      rfl

/-- Every device operation of the directory listing loop is a read. -/
theorem dir_walk_go_reads (BPB : Nat) (pread : Nat → Except Int (List Byte))
    (preadBlk : Nat → Nat) (size : Nat) :
    ∀ (fuel i : Nat) (buf : List Byte),
      ∀ op ∈ (numbfs_dir_walk_go BPB pread preadBlk size fuel i buf).2.2,
        op.isRead = true := by
  intro fuel
  induction fuel with
  | zero =>
    intro i buf op hop
    simp [numbfs_dir_walk_go] at hop
  | succ f ih =>
    intro i buf op hop
    simp only [numbfs_dir_walk_go] at hop
    by_cases hlt : i < size
    · rw [if_pos hlt] at hop
      by_cases hb : i % BPB = 0
      · rw [if_pos hb] at hop
        cases hpr : pread i with
        | error e =>
          rw [hpr] at hop
          simp at hop
          subst hop
          rfl
        | ok buf2 =>
          rw [hpr] at hop
          simp at hop
          rcases hop with rfl | hop2
          · rfl
          · exact ih (i + 64) buf2 op hop2
      · rw [if_neg hb] at hop
        exact ih (i + 64) buf op hop
    · rw [if_neg hlt] at hop
      simp at hop

/-- Every device operation of the single-inode inspection is a read. -/
theorem show_inode_reads (BPB : Nat) (ext : Externals) (nid : Int) :
    ∀ op ∈ (numbfs_fsck_show_inode BPB ext nid).2.2, op.isRead = true := by
  intro op hop
  cases hgi : ext.get_inode nid with
  | error e =>
    simp only [numbfs_fsck_show_inode, hgi] at hop
    simp at hop
    subst hop
    rfl
  | ok ni =>
    cases hrb : ext.read_block (ext.data_blk ni.xattr_start) with
    | error e =>
      simp only [numbfs_fsck_show_inode, hgi, hrb] at hop
      simp at hop
      rcases hop with rfl | rfl
      · rfl
      · rfl
    | ok buf =>
      by_cases hd : S_ISDIR ni.mode
      · simp only [numbfs_fsck_show_inode, hgi, hrb, hd, if_true] at hop
        simp at hop
        rcases hop with rfl | rfl | hop2 | hop2
        · rfl
        · rfl
        · exact dump_xattrs_reads BPB ext.read_block
            (ext.data_blk ni.xattr_start) ni.xattr_count op hop2
        · exact dir_walk_go_reads BPB (ext.pread_inode nid)
            (ext.pread_inode_blk nid) ni.size ni.size 0
            (List.replicate BPB 0) op hop2
      · simp only [numbfs_fsck_show_inode, hgi, hrb] at hop
        rw [if_neg hd] at hop
        simp at hop
        rcases hop with rfl | rfl | hop2
        · rfl
        · rfl
        · exact dump_xattrs_reads BPB ext.read_block
            (ext.data_blk ni.xattr_start) ni.xattr_count op hop2

/-- C7: on every run, whatever the device and option combination, every
device operation in the run's trace is a read — the tool performs no
write, so the contents of the target device are unchanged when the run
ends.  The external I/O helpers (internal.h / utils.h, not under src/)
are modelled from the spec as read-only services. -/
theorem numbfs_fsck_c7_read_only (BPB : Nat) (cfg : FsckCfg) (ext : Externals) :
    ∀ op ∈ (numbfs_fsck BPB cfg ext).ops, op.isRead = true := by
  intro op hop
  unfold numbfs_fsck at hop
  cases ho : ext.openDev with
  | error e =>
    rw [ho] at hop
    simp at hop
  | ok u =>
    cases u
    rw [ho] at hop
    cases hgs : ext.getSuperblock with
    | error e =>
      rw [hgs] at hop
      simp at hop
      subst hop
      rfl
    | ok sbi =>
      rw [hgs] at hop
      simp only at hop
      have hi_reads : ∀ o ∈ (if cfg.show_inodes then
          numbfs_fsck_bitmap_check BPB ext.pread sbi.ibitmap_start sbi.inode_start
            sbi.total_inodes sbi.free_inodes
          else ((none : Option FsckResult), ([] : List DevOp))).2,
          DevOp.isRead o = true := by
        by_cases h : cfg.show_inodes
        · rw [if_pos h]
          exact bitmap_check_reads BPB ext.pread sbi.ibitmap_start
            sbi.inode_start sbi.total_inodes sbi.free_inodes
        · rw [if_neg h]
          intro o ho2
          simp at ho2
      have hb_reads : ∀ o ∈ (if cfg.show_blocks then
          numbfs_fsck_bitmap_check BPB ext.pread sbi.bbitmap_start sbi.data_start
            sbi.data_blocks sbi.free_blocks
          else ((none : Option FsckResult), ([] : List DevOp))).2,
          DevOp.isRead o = true := by
        by_cases h : cfg.show_blocks
        · rw [if_pos h]
          exact bitmap_check_reads BPB ext.pread sbi.bbitmap_start
            sbi.data_start sbi.data_blocks sbi.free_blocks
        · rw [if_neg h]
          intro o ho2
          simp at ho2
      cases hmi : (if cfg.show_inodes then
          numbfs_fsck_bitmap_check BPB ext.pread sbi.ibitmap_start sbi.inode_start
            sbi.total_inodes sbi.free_inodes
          else ((none : Option FsckResult), ([] : List DevOp))).1 with
      | some res =>
        rw [hmi] at hop
        simp at hop
        rcases hop with rfl | hop2
        · rfl
        · exact hi_reads op hop2
      | none =>
        rw [hmi] at hop
        simp only at hop
        cases hmb : (if cfg.show_blocks then
            numbfs_fsck_bitmap_check BPB ext.pread sbi.bbitmap_start sbi.data_start
              sbi.data_blocks sbi.free_blocks
            else ((none : Option FsckResult), ([] : List DevOp))).1 with
        | some res =>
          rw [hmb] at hop
          simp at hop
          rcases hop with rfl | hop2 | hop2
          · rfl
          · exact hi_reads op hop2
          · exact hb_reads op hop2
        | none =>
          rw [hmb] at hop
          by_cases hn : 0 ≤ cfg.nid
          · rw [if_pos hn] at hop
            by_cases hz : (numbfs_fsck_show_inode BPB ext cfg.nid).2.1 = 0
            · rw [if_pos hz] at hop
              simp at hop
              rcases hop with rfl | hop2 | hop2 | hop2
              · rfl
              · exact hi_reads op hop2
              · exact hb_reads op hop2
              · exact show_inode_reads BPB ext cfg.nid op hop2
            · rw [if_neg hz] at hop
              simp at hop
              rcases hop with rfl | hop2 | hop2 | hop2
              · rfl
              · exact hi_reads op hop2
              · exact hb_reads op hop2
              · exact show_inode_reads BPB ext cfg.nid op hop2
          · rw [if_neg hn] at hop
            simp at hop
            rcases hop with rfl | hop2 | hop2
            · rfl
            · exact hi_reads op hop2
            · exact hb_reads op hop2

/-- Witness for C7: on a minimal run (no audits, no nid) the trace is
the single superblock read, which is a read operation. -/
theorem numbfs_fsck_c7_read_only_witness :
    DevOp.read 1 ∈ (numbfs_fsck 1 ⟨false, false, -1⟩ extC7).ops ∧
      (DevOp.read 1).isRead = true :=
  ⟨by decide,
    numbfs_fsck_c7_read_only 1 ⟨false, false, -1⟩ extC7 (DevOp.read 1)
      (by decide)⟩
